import Mathlib

/-!
Verification of the sfc-threads paginator (src/paginator.js).

The script groups the rows of a posts table into blocks (one block per
row matching the word pattern `post`, optionally preceded by a row
matching `space`), shows one page of ten blocks at a time, and drives
the page index from a small Prev/Next widget.  We embed the row model,
the row grouper `collectBlocks`, the pager `showBlocks`, the controls
state machine of `createControls`, the orchestrator `paginate`, the
polling loop of `waitForPostsToStabilize`, and the one-shot
initialization guard, and prove the specified properties about them.
-/

namespace SfcPaginator

/-- One table row of the posts container: its `className` attribute and its
inline `style.display` value (the empty string means default/visible). -/
structure Row where
  className : String
  display : String
deriving DecidableEq, Repr

/-- Word characters of the JavaScript regex class `\w`: ASCII letters,
digits and underscore. -/
def isWordChar (c : Char) : Bool := c.isAlphanum || c == '_'

/-- `matchesAt tok s` holds when `tok` is a prefix of `s` whose following
character, if any, is a non-word character: the trailing `\b` of the
regex `\btok\b` for a token made of word characters. -/
def matchesAt : List Char → List Char → Bool
  | [], [] => true
  | [], c :: _ => !isWordChar c
  | _ :: _, [] => false
  | t :: ts, c :: cs => t == c && matchesAt ts cs

/-- Scan of `testWord`: try to match at every position whose preceding
character (tracked by `prevW`) is not a word character. -/
def testWordAux (tok : List Char) : Bool → List Char → Bool
  | _, [] => false
  | prevW, c :: cs => (!prevW && matchesAt tok (c :: cs)) || testWordAux tok (isWordChar c) cs

/-- `testWord tok s` embeds the JavaScript test `/\btok\b/.test(s)` for a
token `tok` made of word characters, as used on `className` strings in
`collectBlocks` (src/paginator.js lines 54 and 58). -/
def testWord (tok s : String) : Bool := testWordAux tok.data false s.data

/-- Splitter for class attributes: cut the character list at whitespace,
keeping the accumulated current token `acc` (in reverse). -/
def classTokensAux : List Char → List Char → List String
  | acc, [] => [String.mk acc.reverse]
  | acc, c :: cs =>
    if c.isWhitespace then String.mk acc.reverse :: classTokensAux [] cs
    else classTokensAux (c :: acc) cs

/-- Modelled from the spec: "its class list contains the token" — the DOM
class list is the `className` string split on whitespace.  This is the
spec's classification, kept separate so it can be compared with the
source's word-boundary regex `testWord`. -/
def classListContains (cls tok : String) : Bool :=
  (classTokensAux [] cls.data).contains tok

/-- Whether the row at index `i` matches the word pattern `post`
(out-of-range indices match nothing, like an absent `trs[i]`). -/
def postAt (trs : List Row) (i : Nat) : Bool :=
  match trs.get? i with
  | some r => testWord "post" r.className
  | none => false

/-- Whether the row at index `i` matches the word pattern `space`. -/
def spaceAt (trs : List Row) (i : Nat) : Bool :=
  match trs.get? i with
  | some r => testWord "space" r.className
  | none => false

/-- The block started at row index `i` by the loop body of
`collectBlocks`: rows are addressed by index into `trs`; a `post` row
yields a block holding the preceding row too when that row exists and
matches `space`. -/
def blockAt (trs : List Row) (i : Nat) : Option (List Nat) :=
  if postAt trs i then
    some (if 0 < i ∧ spaceAt trs (i - 1) then [i - 1, i] else [i])
  else none

/-- Embedding of `collectBlocks` (src/paginator.js lines 46-64): scan the
rows in document order and emit one block per `post`-matching row. -/
def collectBlocks (trs : List Row) : List (List Nat) :=
  (List.range trs.length).filterMap (blockAt trs)

/-- Pages hold ten post blocks (src/paginator.js line 27). -/
def POSTS_PER_PAGE : Nat := 10

/-- Assignment `tr.style.display = d` for the row at index `j` (an
out-of-range index, which the script never produces, changes nothing). -/
def setDisplay : List Row → Nat → String → List Row
  | [], _, _ => []
  | r :: rs, 0, d => { r with display := d } :: rs
  | r :: rs, j + 1, d => r :: setDisplay rs j d

/-- Embedding of `showBlocks` (src/paginator.js lines 66-75): walk the
blocks in order; blocks whose index lies in the current page's window
get display value `""` on each of their rows, all others get `"none"`. -/
def showBlocks (blocks : List (List Nat)) (pageIndex : Nat) (rows : List Row) : List Row :=
  (blocks.enum).foldl
    (fun rs ib =>
      ib.2.foldl
        (fun rs' j =>
          setDisplay rs' j
            (if pageIndex * POSTS_PER_PAGE ≤ ib.1 ∧
                ib.1 < pageIndex * POSTS_PER_PAGE + POSTS_PER_PAGE then "" else "none"))
        rs)
    rows

/-- Applying a list of display writes `(index, value)` in order. -/
def applyWrites (ws : List (Nat × String)) (rows : List Row) : List Row :=
  ws.foldl (fun rs w => setDisplay rs w.1 w.2) rows

/-- The writes `showBlocks blocks pageIndex` performs, in order. -/
def pageWrites (blocks : List (List Nat)) (pageIndex : Nat) : List (Nat × String) :=
  (blocks.enum).flatMap
    (fun ib =>
      ib.2.map (fun j =>
        (j, if pageIndex * POSTS_PER_PAGE ≤ ib.1 ∧
              ib.1 < pageIndex * POSTS_PER_PAGE + POSTS_PER_PAGE then "" else "none")))

/-- The display value the row at index `k` holds after a list of writes,
given its prior value `d`. -/
def lastVal (ws : List (Nat × String)) (k : Nat) (d : String) : String :=
  ws.foldl (fun acc w => if w.1 = k then w.2 else acc) d

/-- Number of unit indices below `U` that fall in page `p`'s visibility
window — the size of the visible set `showBlocks` selects. -/
def visCount (U p : Nat) : Nat :=
  ((List.range U).filter fun j =>
    decide (p * POSTS_PER_PAGE ≤ j ∧ j < p * POSTS_PER_PAGE + POSTS_PER_PAGE)).length

/-- Observable state of the widget of `createControls`: the closure
variable `current`, the two buttons' `disabled` flags, the indicator
text, and the page indices the `onPage` callback has been invoked with,
in order. -/
structure ControlsState where
  current : Nat
  prevDisabled : Bool
  nextDisabled : Bool
  indicator : String
  onPageCalls : List Nat
deriving DecidableEq, Repr

/-- State right after `createControls` built the widget (src/paginator.js
lines 87-100): `current = 0`, Previous disabled explicitly (line 90),
Next left at its default enabled state, indicator `"Page 1 of
totalPages"` (line 98), and the callback not yet invoked. -/
def initControls (totalPages : Nat) : ControlsState :=
  { current := 0
    prevDisabled := true
    nextDisabled := false
    indicator := "Page 1 of " ++ toString totalPages
    onPageCalls := [] }

/-- Embedding of `updateButtons` (lines 102-107): refresh the disabled
flags and the indicator from `current`, then invoke `onPage current`. -/
def updateButtons (totalPages : Nat) (s : ControlsState) : ControlsState :=
  { s with
    prevDisabled := decide (s.current ≤ 0)
    nextDisabled := decide (totalPages - 1 ≤ s.current)
    indicator := "Page " ++ toString (s.current + 1) ++ " of " ++ toString totalPages
    onPageCalls := s.onPageCalls ++ [s.current] }

/-- User-visible events of the widget: the two click handlers (lines
109-114) and the exposed `setPage` setter (line 121), whose argument is
an arbitrary integer. -/
inductive Ev where
  | clickPrev
  | clickNext
  | setPage (n : Int)
deriving DecidableEq, Repr

/-- One step of the widget: the click handlers run `updateButtons` only
when their guard holds; `setPage` clamps its argument into
`[0, totalPages - 1]` with `Math.max(0, Math.min(totalPages - 1, n))`. -/
def step (totalPages : Nat) (s : ControlsState) : Ev → ControlsState
  | Ev.clickPrev =>
    if 0 < s.current then updateButtons totalPages { s with current := s.current - 1 } else s
  | Ev.clickNext =>
    if s.current < totalPages - 1 then
      updateButtons totalPages { s with current := s.current + 1 }
    else s
  | Ev.setPage n =>
    updateButtons totalPages
      { s with current := (max 0 (min ((totalPages : Int) - 1) n)).toNat }

/-- The widget state after a sequence of events, starting from the state
`createControls` leaves behind. -/
def runEvents (totalPages : Nat) (evs : List Ev) : ControlsState :=
  evs.foldl (step totalPages) (initControls totalPages)

/-- Embedding of `paginate` (lines 124-147): group the rows; skip when no
block or at most `POSTS_PER_PAGE` blocks exist; otherwise build the
widget with `totalPages = ceil(blocks.length / POSTS_PER_PAGE)`, jump to
the last page via `setPage` (each resulting `onPage` call runs
`showBlocks`), and return the updated rows with the page count and
widget state. -/
def paginate (rows : List Row) : List Row × Option (Nat × ControlsState) :=
  let blocks := collectBlocks rows
  if blocks.length = 0 then (rows, none)
  else if blocks.length ≤ POSTS_PER_PAGE then (rows, none)
  else
    let totalPages := (blocks.length + (POSTS_PER_PAGE - 1)) / POSTS_PER_PAGE
    let st := step totalPages (initControls totalPages) (Ev.setPage ((totalPages : Int) - 1))
    (st.onPageCalls.foldl (fun rs p => showBlocks blocks p rs) rows, some (totalPages, st))

/-- Events the polling loop of `waitForPostsToStabilize` can perform:
disconnecting the mutation observer and settling the promise.  A reject
event exists in the model but the code never emits one. -/
inductive WEv where
  | disconnect
  | resolve
  | reject
deriving DecidableEq, Repr

/-- Embedding of the `check` loop of `waitForPostsToStabilize` (lines
164-175): at poll time `t`, with `stableAt t` the value `stableSince`
holds at that moment (it is set by the mutation observer, so it is an
arbitrary function of time here), disconnect the observer and resolve
when the quiet window (300 ms) or the overall timeout has elapsed,
otherwise poll again 100 ms later.  `fuel` bounds the polls so the
function is total; the theorem shows `timeout / 100 + 2` always
suffices. -/
def checkRun (stableAt : Nat → Nat) (timeout start : Nat) : Nat → Nat → List WEv
  | 0, _ => []
  | fuel + 1, t =>
    if 300 < t - stableAt t then [WEv.disconnect, WEv.resolve]
    else if timeout < t - start then [WEv.disconnect, WEv.resolve]
    else checkRun stableAt timeout start fuel (t + 100)

/-- Process-wide state seen by the script's immediately-invoked body: the
`window.__sfcPaginatorInitialized` flag and how many times the body has
run past the guard. -/
structure World where
  initialized : Bool
  initRuns : Nat
deriving DecidableEq, Repr

/-- Embedding of the one-shot guard (lines 23-25): return immediately
when the flag is already set, otherwise set it and run the body once. -/
def scriptBody (w : World) : World :=
  if w.initialized then w
  else { initialized := true, initRuns := w.initRuns + 1 }

/-! ### Pager lemmas: writes, last-write-wins, idempotence -/

theorem setDisplay_getElem? (rows : List Row) (j : Nat) (d : String) (k : Nat) :
    (setDisplay rows j d)[k]? =
      if k = j then rows[k]?.map (fun r => { r with display := d }) else rows[k]? := by
  induction rows generalizing j k with
  | nil => simp [setDisplay]
  | cons r rs ih =>
    cases j with
    | zero =>
      cases k with
      | zero => simp [setDisplay]
      | succ k => simp [setDisplay]
    | succ j =>
      cases k with
      | zero => simp [setDisplay]
      | succ k => simpa [setDisplay] using ih j k

theorem applyWrites_nil (rows : List Row) : applyWrites [] rows = rows := rfl

theorem applyWrites_cons (w : Nat × String) (ws : List (Nat × String)) (rows : List Row) :
    applyWrites (w :: ws) rows = applyWrites ws (setDisplay rows w.1 w.2) := rfl

theorem applyWrites_append (a b : List (Nat × String)) (rows : List Row) :
    applyWrites (a ++ b) rows = applyWrites b (applyWrites a rows) := by
  simp [applyWrites, List.foldl_append]

theorem lastVal_nil (k : Nat) (d : String) : lastVal [] k d = d := rfl

theorem lastVal_cons (w : Nat × String) (ws : List (Nat × String)) (k : Nat) (d : String) :
    lastVal (w :: ws) k d = lastVal ws k (if w.1 = k then w.2 else d) := rfl

theorem applyWrites_getElem? (ws : List (Nat × String)) (rows : List Row) (k : Nat) :
    (applyWrites ws rows)[k]? =
      rows[k]?.map (fun r => { r with display := lastVal ws k r.display }) := by
  induction ws generalizing rows with
  | nil => cases h : rows[k]? <;> simp [applyWrites, lastVal_nil, h]
  | cons w ws ih =>
    rw [applyWrites_cons, ih, setDisplay_getElem?]
    by_cases hk : k = w.1
    · cases h : rows[k]? <;> simp [hk, h, lastVal_cons, Option.map_map, Function.comp]
    · have : w.1 = k ↔ False := by constructor <;> intro h' <;> simp_all
      cases h : rows[k]? <;> simp [hk, h, lastVal_cons, this]

theorem lastVal_id_or_const (ws : List (Nat × String)) (k : Nat) :
    (forall d, lastVal ws k d = d) ∨ (forall d e, lastVal ws k d = lastVal ws k e) := by
  induction ws with
  | nil => exact Or.inl fun d => rfl
  | cons w ws ih =>
    by_cases h : w.1 = k
    · exact Or.inr fun d e => by simp [lastVal_cons, h]
    · rcases ih with hid | hconst
      · exact Or.inl fun d => by simp [lastVal_cons, h, hid]
      · exact Or.inr fun d e => by simp only [lastVal_cons, h, if_false]; exact hconst _ _

theorem lastVal_lastVal (ws : List (Nat × String)) (k : Nat) (d : String) :
    lastVal ws k (lastVal ws k d) = lastVal ws k d := by
  rcases lastVal_id_or_const ws k with h | h
  · rw [h]
  · exact h _ _

theorem applyWrites_idem (ws : List (Nat × String)) (rows : List Row) :
    applyWrites ws (applyWrites ws rows) = applyWrites ws rows := by
  apply List.ext_getElem?
  intro k
  rw [applyWrites_getElem?, applyWrites_getElem?]
  cases h : rows[k]? <;> simp [lastVal_lastVal]

theorem applyWrites_map_const (blk : List Nat) (v : String) (rs : List Row) :
    applyWrites (blk.map (fun j => (j, v))) rs =
      blk.foldl (fun rs' j => setDisplay rs' j v) rs := by
  simp [applyWrites, List.foldl_map]

theorem foldl_applyWrites (wf : Nat × List Nat → List (Nat × String)) :
    ∀ (L : List (Nat × List Nat)) (rows : List Row),
      L.foldl (fun rs ib => applyWrites (wf ib) rs) rows = applyWrites (L.flatMap wf) rows := by
  intro L
  induction L with
  | nil => intro rows; rfl
  | cons ib L ih =>
    intro rows
    rw [List.foldl_cons, List.flatMap_cons, applyWrites_append, ih]

theorem showBlocks_eq_applyWrites (blocks : List (List Nat)) (p : Nat) (rows : List Row) :
    showBlocks blocks p rows = applyWrites (pageWrites blocks p) rows := by
  unfold showBlocks pageWrites
  rw [← foldl_applyWrites]
  congr 1
  funext rs ib
  rw [applyWrites_map_const]

example : testWord "post" "post-header" = true := by decide
example : classListContains "post-header" "post" = false := by decide
example : testWord "post" "repost" = false := by decide
example : testWord "space" "space post" = true := by decide
example :
    collectBlocks [⟨"space", ""⟩, ⟨"post", ""⟩, ⟨"other", ""⟩, ⟨"post", ""⟩] =
      [[0, 1], [3]] := by decide

example :
    showBlocks [[0], [1]] 0 [⟨"post", "x"⟩, ⟨"post", "x"⟩] =
      [⟨"post", ""⟩, ⟨"post", ""⟩] := by decide

example :
    (paginate (List.replicate 25 ⟨"post", ""⟩)).2.map Prod.fst = some 3 := by decide

example : scriptBody (scriptBody ⟨false, 0⟩) = ⟨true, 1⟩ := by decide

example : checkRun (fun _ => 0) 5000 0 52 0 = [WEv.disconnect, WEv.resolve] := by decide

/-! ### Claim theorems -/

/-- C9: the Pager is idempotent — reapplying `showBlocks` with the same
blocks and page index leaves every row's display exactly as one
application does — and visibility is mutated only through `showBlocks`:
the orchestrator `paginate` returns the rows either untouched or exactly
as a single `showBlocks` application leaves them. -/
theorem showBlocks_idempotent : ∀ (blocks : List (List Nat)) (p : Nat) (rows : List Row),
    showBlocks blocks p (showBlocks blocks p rows) = showBlocks blocks p rows ∧
    ((paginate rows).1 = rows ∨
      ∃ q, (paginate rows).1 = showBlocks (collectBlocks rows) q rows) := by
  intro blocks p rows
  constructor
  · rw [showBlocks_eq_applyWrites, showBlocks_eq_applyWrites]
    exact applyWrites_idem _ _
  · by_cases h0 : (collectBlocks rows).length = 0
    · left; simp [paginate, h0]
    · by_cases h1 : (collectBlocks rows).length ≤ POSTS_PER_PAGE
      · left; simp [paginate, h0, h1]
      · right
        simp only [paginate, if_neg h0, if_neg h1]
        simp only [step, updateButtons, initControls]
        simp only [List.nil_append, List.foldl_cons, List.foldl_nil]
        exact ⟨_, rfl⟩

/-- C8: the one-shot initialization guard — running the script body
stamps the process-wide flag, a second (re-entrant or re-injected)
invocation is a no-op that changes nothing, an invocation on an
already-initialized world changes nothing, and the body runs at most
once. -/
theorem script_guard_once : ∀ w : World,
    (scriptBody w).initialized = true ∧
    scriptBody (scriptBody w) = scriptBody w ∧
    scriptBody { w with initialized := true } = { w with initialized := true } ∧
    (scriptBody w).initRuns ≤ w.initRuns + 1 := by
  intro w
  by_cases h : w.initialized <;> simp [scriptBody, h]

theorem checkRun_resolves_of (stableAt : Nat → Nat) (timeout start : Nat) :
    ∀ fuel t, start ≤ t → timeout < (t - start) + fuel * 100 →
      checkRun stableAt timeout start (fuel + 1) t = [WEv.disconnect, WEv.resolve] := by
  intro fuel
  induction fuel with
  | zero =>
    intro t h1 h2
    unfold checkRun
    split
    · rfl
    · rw [if_pos (by omega)]
  | succ fuel ih =>
    intro t h1 h2
    unfold checkRun
    split
    · rfl
    · by_cases hb : timeout < t - start
      · rw [if_pos hb]
      · rw [if_neg hb]
        exact ih (t + 100) (by omega) (by omega)

/-- C6: the polling loop of `waitForPostsToStabilize` always settles —
for every mutation history (an arbitrary `stableAt`), every timeout and
every start time, within `timeout / 100 + 2` polls the loop disconnects
the observer exactly once and then resolves, and never emits a reject:
its event trace is exactly `[disconnect, resolve]`. -/
theorem waitForPostsToStabilize_resolves : ∀ (stableAt : Nat → Nat) (timeout start : Nat),
    checkRun stableAt timeout start (timeout / 100 + 2) start =
      [WEv.disconnect, WEv.resolve] := by
  intro stableAt timeout start
  have h : timeout / 100 + 2 = (timeout / 100 + 1) + 1 := rfl
  rw [h]
  exact checkRun_resolves_of stableAt timeout start (timeout / 100 + 1) start (Nat.le_refl start)
    (by omega)

/-- C7: when the Row Grouper yields zero blocks, or at most
`POSTS_PER_PAGE` blocks, `paginate` skips — it returns the rows
untouched (every display style unchanged) and creates no widget. -/
theorem paginate_skips_small (rows : List Row)
    (h : (collectBlocks rows).length ≤ POSTS_PER_PAGE) :
    paginate rows = (rows, none) := by
  by_cases h0 : (collectBlocks rows).length = 0 <;> simp [paginate, h0, h]

/-- Witness for `paginate_skips_small`: eight post rows are left exactly
as they are, with no widget. -/
theorem paginate_skips_small_witness :
    paginate (List.replicate 8 { className := "post", display := "" }) =
      (List.replicate 8 { className := "post", display := "" }, none) :=
  paginate_skips_small (List.replicate 8 { className := "post", display := "" }) (by decide)

/-- C3: on a container of 25 post rows and no spacer rows, `paginate`
produces `totalPages = 3`, the automatic jump lands on page index 2
(indicator "Page 3 of 3"), and the rows of units 20-24 are visible while
the rows of units 0-19 carry display "none". -/
theorem paginate_25_posts_last_page :
    (paginate (List.replicate 25 { className := "post", display := "" })).2.map Prod.fst =
      some 3 ∧
    ((paginate (List.replicate 25 { className := "post", display := "" })).2.map
      fun x => x.2.current) = some 2 ∧
    ((paginate (List.replicate 25 { className := "post", display := "" })).2.map
      fun x => x.2.indicator) = some "Page 3 of 3" ∧
    (paginate (List.replicate 25 { className := "post", display := "" })).1 =
      List.replicate 20 { className := "post", display := "none" } ++
        List.replicate 5 { className := "post", display := "" } := by decide

/-- C5: the exposed `setPage` setter is total (in the embedding it is a
function on all integers, so no request throws) and clamps any integer
request to the nearest bound of `[0, totalPages - 1]`: the new page is
exactly `max 0 (min (totalPages - 1) n)`, so below-range requests become
0, above-range requests become `totalPages - 1`, in-range requests are
kept, and the normal update sequence — indicator text, button states,
callback — then runs with the clamped value. -/
theorem setPage_clamps (tp : Nat) (s : ControlsState) (n : Int) (h : 1 ≤ tp) :
    (((step tp s (Ev.setPage n)).current : Int) = max 0 (min ((tp : Int) - 1) n)) ∧
    (step tp s (Ev.setPage n)).current ≤ tp - 1 ∧
    (n < 0 → (step tp s (Ev.setPage n)).current = 0) ∧
    ((tp : Int) - 1 < n → (step tp s (Ev.setPage n)).current = tp - 1) ∧
    (0 ≤ n → n ≤ (tp : Int) - 1 → ((step tp s (Ev.setPage n)).current : Int) = n) ∧
    (step tp s (Ev.setPage n)).indicator =
      "Page " ++ toString ((step tp s (Ev.setPage n)).current + 1) ++ " of " ++ toString tp ∧
    (step tp s (Ev.setPage n)).onPageCalls =
      s.onPageCalls ++ [(step tp s (Ev.setPage n)).current] ∧
    (step tp s (Ev.setPage n)).prevDisabled =
      decide ((step tp s (Ev.setPage n)).current = 0) ∧
    (step tp s (Ev.setPage n)).nextDisabled =
      decide ((step tp s (Ev.setPage n)).current = tp - 1) := by
  simp only [step, updateButtons]
  refine ⟨by omega, by omega, by omega, by omega, by omega, trivial, trivial, ?_, ?_⟩
  · exact decide_eq_decide.mpr (by omega)
  · exact decide_eq_decide.mpr (by omega)

/-- Witness for `setPage_clamps`: with three pages, requesting page -7
lands on page 0. -/
theorem setPage_clamps_witness :
    (step 3 (initControls 3) (Ev.setPage (-7))).current = 0 := by
  have h1 := (setPage_clamps 3 (initControls 3) (-7) (by decide)).1
  omega

theorem step_buttons_inv (tp : Nat) (h : 2 ≤ tp) (s : ControlsState) (e : Ev)
    (hcur : s.current ≤ tp - 1)
    (hprev : s.prevDisabled = true ↔ s.current = 0)
    (hnext : s.nextDisabled = true ↔ s.current = tp - 1) :
    (step tp s e).current ≤ tp - 1 ∧
    ((step tp s e).prevDisabled = true ↔ (step tp s e).current = 0) ∧
    ((step tp s e).nextDisabled = true ↔ (step tp s e).current = tp - 1) := by
  cases e with
  | clickPrev =>
    by_cases hg : 0 < s.current
    · simp only [step, if_pos hg, updateButtons]
      exact ⟨by omega, by simp only [decide_eq_true_eq]; omega,
        by simp only [decide_eq_true_eq]; omega⟩
    · simp only [step, if_neg hg]
      exact ⟨hcur, hprev, hnext⟩
  | clickNext =>
    by_cases hg : s.current < tp - 1
    · simp only [step, if_pos hg, updateButtons]
      exact ⟨by omega, by simp only [decide_eq_true_eq]; omega,
        by simp only [decide_eq_true_eq]; omega⟩
    · simp only [step, if_neg hg]
      exact ⟨hcur, hprev, hnext⟩
  | setPage n =>
    simp only [step, updateButtons]
    exact ⟨by omega, by simp only [decide_eq_true_eq]; omega,
      by simp only [decide_eq_true_eq]; omega⟩

/-- C4 (amended): for every totalPages of at least 2 — `paginate` only
ever builds the widget with at least 2 pages — and at every point of the
widget's lifetime, including immediately after construction, Previous is
disabled exactly when the current page is 0 and Next is disabled exactly
when it is totalPages - 1. -/
theorem buttons_disabled_invariant (tp : Nat) (h : 2 ≤ tp) (evs : List Ev) :
    ((runEvents tp evs).prevDisabled = true ↔ (runEvents tp evs).current = 0) ∧
    ((runEvents tp evs).nextDisabled = true ↔ (runEvents tp evs).current = tp - 1) := by
  suffices h' : ∀ s : ControlsState, s.current ≤ tp - 1 →
      (s.prevDisabled = true ↔ s.current = 0) →
      (s.nextDisabled = true ↔ s.current = tp - 1) →
      (evs.foldl (step tp) s).current ≤ tp - 1 ∧
      ((evs.foldl (step tp) s).prevDisabled = true ↔ (evs.foldl (step tp) s).current = 0) ∧
      ((evs.foldl (step tp) s).nextDisabled = true ↔
        (evs.foldl (step tp) s).current = tp - 1) by
    have hrun := h' (initControls tp) (by simp [initControls]) (by simp [initControls])
      (by simp only [initControls]; simp; omega)
    exact ⟨hrun.2.1, hrun.2.2⟩
  induction evs with
  | nil => intro s h1 h2 h3; exact ⟨h1, h2, h3⟩
  | cons e evs ih =>
    intro s h1 h2 h3
    rw [List.foldl_cons]
    have hstep := step_buttons_inv tp h s e h1 h2 h3
    exact ih (step tp s e) hstep.1 hstep.2.1 hstep.2.2

/-- Witness for `buttons_disabled_invariant`: three pages, one Next
click. -/
theorem buttons_disabled_invariant_witness :
    ((runEvents 3 [Ev.clickNext]).prevDisabled = true ↔
      (runEvents 3 [Ev.clickNext]).current = 0) ∧
    ((runEvents 3 [Ev.clickNext]).nextDisabled = true ↔
      (runEvents 3 [Ev.clickNext]).current = 3 - 1) :=
  buttons_disabled_invariant 3 (by decide) [Ev.clickNext]

/-- Counterexample to C4 as stated: with totalPages = 1, immediately
after construction the current page (0) equals totalPages - 1, yet the
Next button is still enabled — `createControls` sets only Previous
before the first update. -/
theorem buttons_initial_next_cex :
    ¬ ((initControls 1).nextDisabled = true ↔ (initControls 1).current = 1 - 1) := by
  decide

theorem postAt_zero (r : Row) (rs : List Row) :
    postAt (r :: rs) 0 = testWord "post" r.className := rfl

theorem postAt_succ (r : Row) (rs : List Row) (i : Nat) :
    postAt (r :: rs) (i + 1) = postAt rs i := rfl

theorem postAt_lt_length (trs : List Row) (i : Nat) (h : postAt trs i = true) :
    i < trs.length := by
  by_cases hl : i < trs.length
  · exact hl
  · have hnone : trs.get? i = none := List.get?_eq_none.mpr (by omega)
    unfold postAt at h
    rw [hnone] at h
    exact absurd h (by simp)

theorem filterMap_blockAt (trs : List Row) :
    ∀ l : List Nat, l.filterMap (blockAt trs) =
      (l.filter fun i => postAt trs i).map
        (fun i => if 0 < i ∧ spaceAt trs (i - 1) then [i - 1, i] else [i]) := by
  intro l
  induction l with
  | nil => rfl
  | cons a l ih =>
    rw [List.filterMap_cons, List.filter_cons]
    by_cases h : postAt trs a <;> simp [blockAt, h, ih]

theorem collectBlocks_normal (trs : List Row) :
    collectBlocks trs =
      ((List.range trs.length).filter fun i => postAt trs i).map
        (fun i => if 0 < i ∧ spaceAt trs (i - 1) then [i - 1, i] else [i]) :=
  filterMap_blockAt trs (List.range trs.length)

theorem count_post (trs : List Row) :
    ((List.range trs.length).filter fun i => postAt trs i).length =
      (trs.filter fun r => testWord "post" r.className).length := by
  induction trs with
  | nil => rfl
  | cons r rs ih =>
    have hcomp : ((fun i => postAt (r :: rs) i) ∘ Nat.succ) = fun i => postAt rs i := rfl
    simp only [List.length_cons, List.range_succ_eq_map, List.filter_cons, List.filter_map,
      hcomp, postAt_zero]
    by_cases hr : testWord "post" r.className <;> simp [hr, ih]

/-- C1 (amended): `collectBlocks` returns exactly one unit per row whose
class attribute matches `post` as a whole word (the source's
word-boundary regex), in document order and with the grouping rule made
explicit by the normal form; a row belongs to some unit iff it matches
`post` as a whole word, or it matches `space` as a whole word and the
row immediately after it matches `post` — in particular a
`space`-matching row is included exactly when it immediately precedes a
`post`-matching row, and all other rows belong to no unit. -/
theorem collectBlocks_word_boundary_grouping : ∀ trs : List Row,
    collectBlocks trs =
      ((List.range trs.length).filter fun i => postAt trs i).map
        (fun i => if 0 < i ∧ spaceAt trs (i - 1) then [i - 1, i] else [i]) ∧
    (collectBlocks trs).length = (trs.filter fun r => testWord "post" r.className).length ∧
    ∀ k : Nat, (∃ b, b ∈ collectBlocks trs ∧ k ∈ b) ↔
      (postAt trs k = true ∨ (spaceAt trs k = true ∧ postAt trs (k + 1) = true)) := by
  intro trs
  refine ⟨collectBlocks_normal trs, ?_, ?_⟩
  · rw [collectBlocks_normal, List.length_map, count_post]
  · intro k
    rw [collectBlocks_normal]
    constructor
    · rintro ⟨b, hb, hk⟩
      rw [List.mem_map] at hb
      obtain ⟨i, hi, rfl⟩ := hb
      rw [List.mem_filter] at hi
      by_cases hsp : 0 < i ∧ spaceAt trs (i - 1)
      · rw [if_pos hsp] at hk
        simp only [List.mem_cons, List.mem_singleton] at hk
        rcases hk with hk | hk | hk
        · subst hk
          right
          have hi1 : i - 1 + 1 = i := by omega
          exact ⟨hsp.2, by rw [hi1]; exact hi.2⟩
        · subst hk
          exact Or.inl hi.2
        · cases hk
      · rw [if_neg hsp] at hk
        simp only [List.mem_singleton] at hk
        subst hk
        exact Or.inl hi.2
    · rintro (hp | ⟨hs, hp⟩)
      · refine ⟨if 0 < k ∧ spaceAt trs (k - 1) then [k - 1, k] else [k], ?_, ?_⟩
        · rw [List.mem_map]
          exact ⟨k, List.mem_filter.mpr
            ⟨List.mem_range.mpr (postAt_lt_length trs k hp), hp⟩, rfl⟩
        · by_cases hsp : 0 < k ∧ spaceAt trs (k - 1) <;> simp [hsp]
      · refine ⟨[k, k + 1], ?_, ?_⟩
        · rw [List.mem_map]
          refine ⟨k + 1, List.mem_filter.mpr
            ⟨List.mem_range.mpr (postAt_lt_length trs (k + 1) hp), hp⟩, ?_⟩
          have hc : 0 < k + 1 ∧ spaceAt trs (k + 1 - 1) := ⟨Nat.succ_pos k, by simpa using hs⟩
          rw [if_pos hc]
          simp
        · simp

/-- Counterexample to C1 as stated: the source classifies rows with the
word-boundary regex `\bpost\b`, not by class-list token containment — on
a single row of class "post-header" `collectBlocks` returns one unit
although no row's class list contains the token "post". -/
theorem collectBlocks_classlist_cex :
    (collectBlocks [{ className := "post-header", display := "" }]).length = 1 ∧
    (([{ className := "post-header", display := "" }] : List Row).filter
      (fun r => classListContains r.className "post")).length = 0 := by
  decide

theorem length_filter_window (a b : Nat) : ∀ U : Nat,
    ((List.range U).filter fun j => decide (a ≤ j ∧ j < b)).length = min b U - min a U := by
  intro U
  induction U with
  | zero => simp
  | succ U ih =>
    rw [List.range_succ, List.filter_append, List.length_append, ih]
    by_cases h : a ≤ U ∧ U < b <;> simp [h] <;> omega

theorem mem_pageWrites (blocks : List (List Nat)) (p : Nat) (w : Nat × String) :
    w ∈ pageWrites blocks p ↔
      ∃ i b, blocks[i]? = some b ∧ w.1 ∈ b ∧
        w.2 = if p * POSTS_PER_PAGE ≤ i ∧ i < p * POSTS_PER_PAGE + POSTS_PER_PAGE
          then "" else "none" := by
  unfold pageWrites
  rw [List.mem_flatMap]
  constructor
  · rintro ⟨ib, hib, hw⟩
    rw [List.mem_map] at hw
    obtain ⟨j, hj, rfl⟩ := hw
    rw [List.mem_enum_iff_getElem?] at hib
    exact ⟨ib.1, ib.2, hib, hj, rfl⟩
  · rintro ⟨i, b, hib, hmem, hval⟩
    refine ⟨(i, b), List.mem_enum_iff_getElem?.mpr hib, List.mem_map.mpr ⟨w.1, hmem, ?_⟩⟩
    obtain ⟨w1, w2⟩ := w
    simp only at hval ⊢
    rw [hval]

theorem disjoint_unique_block (blocks : List (List Nat))
    (hdisj : blocks.Pairwise fun a b => ∀ k ∈ a, k ∉ b)
    (i j : Nat) (bi bj : List Nat) (k : Nat)
    (hi : blocks[i]? = some bi) (hj : blocks[j]? = some bj)
    (hki : k ∈ bi) (hkj : k ∈ bj) : i = j := by
  by_contra hne
  obtain ⟨hilt, hie⟩ := List.getElem?_eq_some.mp hi
  obtain ⟨hjlt, hje⟩ := List.getElem?_eq_some.mp hj
  rcases Nat.lt_or_ge i j with hij | hge
  · have hr := List.pairwise_iff_get.mp hdisj ⟨i, hilt⟩ ⟨j, hjlt⟩ hij
    rw [List.get_eq_getElem, List.get_eq_getElem, hie, hje] at hr
    exact hr k hki hkj
  · have hji : j < i := by omega
    have hr := List.pairwise_iff_get.mp hdisj ⟨j, hjlt⟩ ⟨i, hilt⟩ hji
    rw [List.get_eq_getElem, List.get_eq_getElem, hie, hje] at hr
    exact hr k hkj hki

theorem lastVal_no_write (ws : List (Nat × String)) (k : Nat) :
    ∀ d, (∀ w ∈ ws, w.1 ≠ k) → lastVal ws k d = d := by
  induction ws with
  | nil => intro d _; rfl
  | cons w ws ih =>
    intro d h
    rw [lastVal_cons, if_neg (h w (List.mem_cons_self w ws))]
    exact ih d fun x hx => h x (List.mem_cons_of_mem w hx)

theorem lastVal_all_eq (ws : List (Nat × String)) (k : Nat) (v : String) :
    ∀ d, (∃ w ∈ ws, w.1 = k) → (∀ w ∈ ws, w.1 = k → w.2 = v) → lastVal ws k d = v := by
  induction ws with
  | nil =>
    intro d hex _
    obtain ⟨w, hw, _⟩ := hex
    cases hw
  | cons w ws ih =>
    intro d hex hall
    rw [lastVal_cons]
    by_cases hw1 : w.1 = k
    · rw [if_pos hw1]
      by_cases hex2 : ∃ x ∈ ws, x.1 = k
      · exact ih w.2 hex2 fun x hx hk => hall x (List.mem_cons_of_mem w hx) hk
      · push_neg at hex2
        rw [lastVal_no_write ws k w.2 hex2]
        exact hall w (List.mem_cons_self w ws) hw1
    · rw [if_neg hw1]
      have hex2 : ∃ x ∈ ws, x.1 = k := by
        obtain ⟨x, hx, hk⟩ := hex
        rcases List.mem_cons.mp hx with h1 | h1
        · rw [h1] at hk; exact absurd hk hw1
        · exact ⟨x, h1, hk⟩
      exact ih d hex2 fun x hx hk => hall x (List.mem_cons_of_mem w hx) hk

/-- C2 (amended): for every block list whose blocks are pairwise
disjoint — overlapping blocks can arise only when one row matches both
`post` and `space` — `showBlocks` gives every row of unit `j` display
value "" exactly when `p*10 ≤ j < (p+1)*10` and "none" otherwise, rows
in no unit are untouched, and with `totalPages = ceil(U/10)` the last
page window holds exactly `min 10 (U - i*10)` unit indices while every
earlier page window holds exactly 10. -/
theorem showBlocks_page_window (blocks : List (List Nat)) (p : Nat) (rows : List Row)
    (hdisj : blocks.Pairwise fun a b => ∀ k ∈ a, k ∉ b) :
    (∀ j b k, blocks[j]? = some b → k ∈ b →
      (showBlocks blocks p rows)[k]? = rows[k]?.map (fun r : Row =>
        { r with display :=
            if p * POSTS_PER_PAGE ≤ j ∧ j < p * POSTS_PER_PAGE + POSTS_PER_PAGE
            then "" else "none" })) ∧
    (∀ k, (∀ b ∈ blocks, k ∉ b) → (showBlocks blocks p rows)[k]? = rows[k]?) ∧
    (∀ i, i < (blocks.length + (POSTS_PER_PAGE - 1)) / POSTS_PER_PAGE - 1 →
      visCount blocks.length i = POSTS_PER_PAGE) ∧
    visCount blocks.length ((blocks.length + (POSTS_PER_PAGE - 1)) / POSTS_PER_PAGE - 1) =
      min POSTS_PER_PAGE
        (blocks.length -
          ((blocks.length + (POSTS_PER_PAGE - 1)) / POSTS_PER_PAGE - 1) * POSTS_PER_PAGE) := by
  refine ⟨?_, ?_, ?_, ?_⟩
  · intro j b k hjb hkb
    rw [showBlocks_eq_applyWrites, applyWrites_getElem?]
    cases hr : rows[k]? with
    | none => rfl
    | some r =>
      have hv : lastVal (pageWrites blocks p) k r.display =
          (if p * POSTS_PER_PAGE ≤ j ∧ j < p * POSTS_PER_PAGE + POSTS_PER_PAGE
            then "" else "none") := by
        apply lastVal_all_eq
        · refine ⟨(k, if p * POSTS_PER_PAGE ≤ j ∧ j < p * POSTS_PER_PAGE + POSTS_PER_PAGE
            then "" else "none"), ?_, rfl⟩
          exact (mem_pageWrites blocks p _).mpr ⟨j, b, hjb, hkb, rfl⟩
        · intro w hw hwk
          obtain ⟨i, b', hib', hmem', hval'⟩ := (mem_pageWrites blocks p w).mp hw
          have hij : i = j := by
            apply disjoint_unique_block blocks hdisj i j b' b k hib' hjb
            · rw [← hwk]; exact hmem'
            · exact hkb
          rw [hij] at hval'
          exact hval'
      simp only [Option.map_some', hv]
  · intro k hk
    rw [showBlocks_eq_applyWrites, applyWrites_getElem?]
    cases hr : rows[k]? with
    | none => rfl
    | some r =>
      have hn : lastVal (pageWrites blocks p) k r.display = r.display := by
        apply lastVal_no_write
        intro w hw
        obtain ⟨i, b', hib', hmem', _⟩ := (mem_pageWrites blocks p w).mp hw
        have hb' : b' ∈ blocks := by
          obtain ⟨hlt, he⟩ := List.getElem?_eq_some.mp hib'
          exact he ▸ List.getElem_mem hlt
        intro hwk
        exact hk b' hb' (hwk ▸ hmem')
      simp only [Option.map_some', hn]
  · intro i hi
    unfold visCount
    rw [length_filter_window]
    simp only [POSTS_PER_PAGE] at hi ⊢
    omega
  · unfold visCount
    rw [length_filter_window]
    simp only [POSTS_PER_PAGE]
    omega

/-- Witness for `showBlocks_page_window`: two singleton blocks over two
post rows, page 0 — both units become visible and the count equations
hold. -/
theorem showBlocks_page_window_witness :
    (∀ j b k, ([[0], [1]] : List (List Nat))[j]? = some b → k ∈ b →
      (showBlocks [[0], [1]] 0
          [{ className := "post", display := "x" },
            { className := "post", display := "x" }])[k]? =
        ([{ className := "post", display := "x" },
            { className := "post", display := "x" }] : List Row)[k]?.map (fun r : Row =>
          { r with display :=
              if 0 * POSTS_PER_PAGE ≤ j ∧ j < 0 * POSTS_PER_PAGE + POSTS_PER_PAGE
              then "" else "none" })) ∧
    (∀ k, (∀ b ∈ ([[0], [1]] : List (List Nat)), k ∉ b) →
      (showBlocks [[0], [1]] 0
          [{ className := "post", display := "x" },
            { className := "post", display := "x" }])[k]? =
        ([{ className := "post", display := "x" },
            { className := "post", display := "x" }] : List Row)[k]?) ∧
    (∀ i, i < (([[0], [1]] : List (List Nat)).length + (POSTS_PER_PAGE - 1)) /
        POSTS_PER_PAGE - 1 →
      visCount ([[0], [1]] : List (List Nat)).length i = POSTS_PER_PAGE) ∧
    visCount ([[0], [1]] : List (List Nat)).length
        ((([[0], [1]] : List (List Nat)).length + (POSTS_PER_PAGE - 1)) /
          POSTS_PER_PAGE - 1) =
      min POSTS_PER_PAGE
        (([[0], [1]] : List (List Nat)).length -
          ((([[0], [1]] : List (List Nat)).length + (POSTS_PER_PAGE - 1)) /
            POSTS_PER_PAGE - 1) * POSTS_PER_PAGE) :=
  showBlocks_page_window [[0], [1]] 0
    [{ className := "post", display := "x" }, { className := "post", display := "x" }]
    (by decide)

/-- Counterexample to C2 as stated: block lists may overlap — here
blocks 9 and 10 share row 9 — and then unit 9, although inside the
window of page 0, ends with its row hidden, because the later block
write wins. -/
theorem showBlocks_overlap_cex :
    ((showBlocks [[0], [1], [2], [3], [4], [5], [6], [7], [8], [9], [9, 10]] 0
        (List.replicate 11 { className := "post", display := "" }))[9]?).map Row.display =
      some "none" ∧
    (0 * POSTS_PER_PAGE ≤ 9 ∧ 9 < 0 * POSTS_PER_PAGE + POSTS_PER_PAGE) := by
  decide

/-- C10: building the widget fires no callback and touches no row —
`initControls` records no `onPage` call (and the controls construction
never references the rows at all) — the indicator initially reads
"Page 1 of totalPages", and a later event fires the callback only when
it is a `setPage` call or a Previous/Next click that changes the page:
any other click leaves the whole state untouched. -/
theorem createControls_initial_silent : ∀ (tp : Nat) (s : ControlsState) (e : Ev),
    (initControls tp).onPageCalls = [] ∧
    (initControls tp).indicator = "Page 1 of " ++ toString tp ∧
    (step tp s e = s ∨
      ((step tp s e).onPageCalls = s.onPageCalls ++ [(step tp s e).current] ∧
        ((∃ n, e = Ev.setPage n) ∨ (step tp s e).current ≠ s.current))) := by
  intro tp s e
  refine ⟨rfl, rfl, ?_⟩
  cases e with
  | clickPrev =>
    by_cases hg : 0 < s.current
    · right
      rw [step, if_pos hg]
      refine ⟨rfl, Or.inr ?_⟩
      show s.current - 1 ≠ s.current
      omega
    · left
      rw [step, if_neg hg]
  | clickNext =>
    by_cases hg : s.current < tp - 1
    · right
      rw [step, if_pos hg]
      refine ⟨rfl, Or.inr ?_⟩
      show s.current + 1 ≠ s.current
      omega
    · left
      rw [step, if_neg hg]
  | setPage n =>
    exact Or.inr ⟨rfl, Or.inl ⟨n, rfl⟩⟩

end SfcPaginator
